import Mathlib

/-!
# Verification of the `winston_transport_rs` core

Shallow embedding of the repository's batched-transport worker, `LogQuery`
evaluation, and the predicate DSL (field paths, comparators, query nodes),
with theorems settling the specification claims.

Conventions of the embedding:
* `serde_json::Value` is modelled by `Json`; JSON numbers (`f64` via
  `Number::as_f64`) are modelled by `Rat` (only order and equality of
  representable values matter to the verified properties).
* `chrono::DateTime<Utc>` is modelled by `DateTimeU`; comparisons go through
  a monotone numeric key, faithful on calendar-valid instants.
* External crate functions (`chrono`'s RFC 3339 parsing, `dateparser::parse`,
  `regex` compilation and matching, `logform`'s record-to-JSON conversion)
  are modelled on the canonical subsets the repository exercises; each model
  carries a doc comment naming the function it stands for.
* A Rust `panic!`/`unwrap` failure is modelled as `Option.none`.
-/

namespace WinstonTransport

/-- Model of `serde_json::Value`. `Number` carries the `f64` obtained by
`Number::as_f64().unwrap_or_default()`, modelled as a rational. -/
inductive Json where
  | Null
  | Bool (b : Bool)
  | Number (n : Rat)
  | String (s : String)
  | Array (elems : List Json)
  | Object (fields : List (String × Json))

/-- Model of `chrono::DateTime<Utc>` restricted to calendar fields; the
repository compares instants and reads year/month/day. -/
structure DateTimeU where
  year : Nat
  month : Nat
  day : Nat
  hour : Nat
  minute : Nat
  second : Nat
deriving DecidableEq, Repr

/-- Monotone key: on calendar-valid values (month ≤ 12, day ≤ 31, hour < 24,
minute < 60, second < 60) it orders exactly as chronological order. -/
def DateTimeU.key (t : DateTimeU) : Nat :=
  ((((t.year * 13 + t.month) * 32 + t.day) * 24 + t.hour) * 60 + t.minute) * 60 + t.second

/-- Model of `<` on `chrono::DateTime<Utc>` (chronological order). -/
def dtLt (a b : DateTimeU) : Bool := decide (a.key < b.key)

/-- Model of `==` on `chrono::DateTime<Utc>` (same instant). -/
def dtEq (a b : DateTimeU) : Bool := decide (a.key = b.key)

def digitVal (c : Char) : Nat := c.toNat - 48

/-- Modelled from the spec: `chrono::DateTime::parse_from_rfc3339` followed by
`with_timezone(&Utc)`, restricted to the canonical `YYYY-MM-DDTHH:MM:SSZ`
form (the form the repository's tests and documentation use); other inputs
parse to `none`. Calendar validation is simplified to `1 ≤ month ≤ 12`,
`1 ≤ day ≤ 31`, `hour < 24`, `minute < 60`, `second < 60`. -/
def parseRFC3339 (s : String) : Option DateTimeU :=
  match s.data with
  | [y1, y2, y3, y4, c1, m1, m2, c2, d1, d2, ct, h1, h2, c3, n1, n2, c4, s1, s2, cz] =>
    if (y1.isDigit && y2.isDigit && y3.isDigit && y4.isDigit &&
        m1.isDigit && m2.isDigit && d1.isDigit && d2.isDigit &&
        h1.isDigit && h2.isDigit && n1.isDigit && n2.isDigit &&
        s1.isDigit && s2.isDigit &&
        (c1 = '-' : Bool) && (c2 = '-' : Bool) && (ct = 'T' : Bool) &&
        (c3 = ':' : Bool) && (c4 = ':' : Bool) && (cz = 'Z' : Bool)) then
      let t : DateTimeU :=
        { year := ((digitVal y1 * 10 + digitVal y2) * 10 + digitVal y3) * 10 + digitVal y4
          month := digitVal m1 * 10 + digitVal m2
          day := digitVal d1 * 10 + digitVal d2
          hour := digitVal h1 * 10 + digitVal h2
          minute := digitVal n1 * 10 + digitVal n2
          second := digitVal s1 * 10 + digitVal s2 }
      if (1 ≤ t.month && t.month ≤ 12 && 1 ≤ t.day && t.day ≤ 31 &&
          t.hour < 24 && t.minute < 60 && t.second < 60) then some t else none
    else none
  | _ => none

/-- Modelled from the spec: `dateparser::parse` (the lenient timestamp parser
used by `LogQuery::extract_timestamp`), restricted to the same canonical
RFC 3339 subset. -/
def parseLooseTime (s : String) : Option DateTimeU := parseRFC3339 s

/-- Model of `regex::Regex`: only its matching behaviour is observable. -/
structure RegexM where
  test : String → Bool

/-- Auxiliary for the modelled regex validity check: balanced `(`/`)`. -/
def parenBalancedAux : List Char → Nat → Bool
  | [], 0 => true
  | [], _ + 1 => false
  | c :: rest, d =>
    if c = '(' then parenBalancedAux rest (d + 1)
    else if c = ')' then
      match d with
      | 0 => false
      | d' + 1 => parenBalancedAux rest d'
    else parenBalancedAux rest d

def parenBalanced (s : String) : Bool := parenBalancedAux s.data 0

/-- Model of `str::starts_with` on character lists. -/
def charsStartWith : List Char → List Char → Bool
  | [], _ => true
  | _ :: _, [] => false
  | p :: ps, c :: cs => p == c && charsStartWith ps cs

/-- Model of `str::contains` (substring search) on character lists. -/
def charsInfix (needle : List Char) : List Char → Bool
  | [] => needle.isEmpty
  | c :: cs => charsStartWith needle (c :: cs) || charsInfix needle cs

/-- Model of `str::contains(&str)` (substring containment). -/
def strHasSub (hay needle : String) : Bool :=
  charsInfix needle.data hay.data

/-- Model of `str::starts_with(&str)`. -/
def strStartsWith (s p : String) : Bool := charsStartWith p.data s.data

/-- Model of `str::ends_with(&str)`. -/
def strEndsWith (s p : String) : Bool :=
  charsStartWith p.data.reverse s.data.reverse

/-- Modelled from the spec: `regex::Regex::new`. The spec documents that
invalid patterns are rejected by the regex engine; validity is abstracted to
a balanced-group check (so the documented invalid pattern `"("` fails), and
the resulting matcher is literal-substring search. -/
def regexCompile (pattern : String) : Option RegexM :=
  if parenBalanced pattern then some ⟨fun s => strHasSub s pattern⟩ else none

/-! ## Predicate DSL: `QueryValue` and `Comparator`
Embedding of `src/query_dsl/dlc/alpha/a/query_value.rs` and `comparator.rs`. -/

/-- Model of `QueryValue` (`query_value.rs`). `Regex` carries the matcher,
`Function` the opaque predicate; `Duration` is unused by evaluation and
carries its length in abstract units. -/
inductive QueryValue where
  | String (s : String)
  | Number (n : Rat)
  | Boolean (b : Bool)
  | Array (elems : List QueryValue)
  | Regex (r : RegexM)
  | DateTime (d : DateTimeU)
  | Duration (d : Nat)
  | Null
  | Function (f : Json → Bool)

/-- Model of the `Comparator` enum (`comparator.rs`). -/
inductive Comparator where
  | Equals | NotEquals | GreaterThan | LessThan | GreaterThanOrEqual
  | LessThanOrEqual | Exists | NotExists | Matches | NotMatches
  | StartsWith | EndsWith | Contains | NotContains | In | NotIn
  | HasAll | HasAny | HasNone | Length | Empty | NotEmpty
  | Between | NotBetween | IsMultipleOf | IsDivisibleBy
  | Before | After | SameDay | Function
deriving DecidableEq

mutual
/-- Embedding of `Comparator::compare_values` (`comparator.rs:486-521`). -/
def compareValues : Json → QueryValue → Bool
  | .String a, .String e => a == e
  | .Number a, .Number e => decide (a = e)
  | .Bool a, .Boolean e => a == e
  | .Array a, .Array e => decide (a.length = e.length) && compareValuesList a e
  | .String a, .Regex r => r.test a
  | .String a, .DateTime e =>
    match parseRFC3339 a with
    | some t => dtEq t e
    | none => false
  | .Null, .Null => true
  | _, _ => false

/-- Pairwise comparison of zipped arrays, as in the `Array` arm of
`compare_values` (length equality is checked first there). -/
def compareValuesList : List Json → List QueryValue → Bool
  | [], _ => true
  | _ :: _, [] => true
  | a :: as_, e :: es => compareValues a e && compareValuesList as_ es
end

/-- Embedding of `Comparator::compare_numbers` (`comparator.rs:523-532`). -/
def compareNumbers (actual : Json) (expected : QueryValue) (f : Rat → Rat → Bool) : Bool :=
  match actual, expected with
  | .Number a, .Number e => f a e
  | _, _ => false

/-- Models `a % b == 0.0` on `f64` (`IsMultipleOf`/`IsDivisibleBy` arms):
false when the divisor is zero (`x % 0.0` is NaN), otherwise true exactly
when the quotient is an integer. -/
def fmodEqZero (a b : Rat) : Bool :=
  if b = 0 then false else decide ((a / b).den = 1)

/-- An arm body that `return true`s on success and falls through to the next
candidate on failure. -/
def hit (b : Bool) : Option Bool := if b then some true else none

/-- One iteration of the candidate loop in `Comparator::evaluate`
(`comparator.rs:50-481`): `some b` models an early `return b`, `none` models
falling through to the next candidate. The Rust `match` on
`(self, expected_value)` is dispatched here on the comparator first; the arms
are in one-to-one correspondence with the source arms. -/
def loopBody (c : Comparator) (v : Json) (e : Option QueryValue) : Option Bool :=
  match c with
  | .Equals =>
    match e with
    | some exp => hit (compareValues v exp)
    | none => none
  | .NotEquals =>
    match e with
    | some exp => hit (!compareValues v exp)
    | none => none
  | .GreaterThan =>
    match e with
    | some exp => hit (compareNumbers v exp fun a b => decide (a > b))
    | none => none
  | .LessThan =>
    match e with
    | some exp => hit (compareNumbers v exp fun a b => decide (a < b))
    | none => none
  | .GreaterThanOrEqual =>
    match e with
    | some exp => hit (compareNumbers v exp fun a b => decide (a ≥ b))
    | none => none
  | .LessThanOrEqual =>
    match e with
    | some exp => hit (compareNumbers v exp fun a b => decide (a ≤ b))
    | none => none
  | .Exists =>
    match e with
    | none => some true
    | some _ => none
  | .NotExists =>
    match e with
    | none => some false
    | some _ => none
  | .Matches =>
    match e with
    | some (.Regex r) =>
      match v with
      | .String s => hit (r.test s)
      | _ => none
    | _ => none
  | .NotMatches =>
    match e with
    | some (.Regex r) =>
      match v with
      | .String s => hit (!r.test s)
      | _ => none
    | _ => none
  | .StartsWith =>
    match e with
    | some (.String p) =>
      match v with
      | .String s => hit (strStartsWith s p)
      | _ => none
    | _ => none
  | .EndsWith =>
    match e with
    | some (.String p) =>
      match v with
      | .String s => hit (strEndsWith s p)
      | _ => none
    | _ => none
  | .Contains =>
    match e with
    | some (.String sub) =>
      match v with
      | .Array a =>
        hit (a.any fun el =>
          match el with
          | .String s => strHasSub s sub
          | _ => false)
      | .String s => hit (strHasSub s sub)
      | _ => none
    | _ => none
  | .NotContains =>
    match e with
    | some (.String sub) =>
      match v with
      | .String s => hit (!strHasSub s sub)
      | _ => none
    | _ => none
  | .In =>
    match e with
    | some (.Array ea) => hit (ea.any fun ev => compareValues v ev)
    | _ => none
  | .NotIn =>
    match e with
    | some (.Array ea) => hit (!ea.any fun ev => compareValues v ev)
    | _ => none
  | .HasAll =>
    match e with
    | some (.Array ea) =>
      match v with
      | .Array a => hit (ea.all fun ev => a.any fun av => compareValues av ev)
      | _ => none
    | _ => none
  | .HasAny =>
    match e with
    | some (.Array ea) =>
      match v with
      | .Array a => hit (ea.any fun ev => a.any fun av => compareValues av ev)
      | _ => none
    | _ => none
  | .HasNone =>
    match e with
    | some (.Array ea) =>
      match v with
      | .Array a => hit (!ea.any fun ev => a.any fun av => compareValues av ev)
      | _ => none
    | _ => none
  | .Length =>
    match e with
    | some exp =>
      match v with
      | .Array a => hit (compareNumbers (.Number a.length) exp fun a b => decide (a = b))
      | _ => none
    | _ => none
  | .Empty =>
    match e with
    | none =>
      match v with
      | .Array a => hit a.isEmpty
      | _ => none
    | some _ => none
  | .NotEmpty =>
    match e with
    | none =>
      match v with
      | .Array a => hit (!a.isEmpty)
      | _ => none
    | some _ => none
  | .Between =>
    match e with
    | some (.Array range) =>
      if range.length = 2 then
        match range.get? 0, range.get? 1 with
        | some lo, some hi =>
          hit (compareNumbers v lo (fun a b => decide (a ≥ b)) &&
               compareNumbers v hi (fun a b => decide (a ≤ b)))
        | _, _ => none
      else none
    | _ => none
  | .NotBetween =>
    match e with
    | some (.Array range) =>
      if range.length = 2 then
        match range.get? 0, range.get? 1 with
        | some lo, some hi =>
          hit (!(compareNumbers v lo (fun a b => decide (a ≥ b)) &&
                 compareNumbers v hi (fun a b => decide (a ≤ b))))
        | _, _ => none
      else none
    | _ => none
  | .IsMultipleOf =>
    match e with
    | some exp =>
      match v, exp with
      | .Number a, .Number b => hit (fmodEqZero a b)
      | _, _ => none
    | none => none
  | .IsDivisibleBy =>
    match e with
    | some exp =>
      match v, exp with
      | .Number a, .Number b => hit (!decide (b = 0) && fmodEqZero a b)
      | _, _ => none
    | none => none
  | .Before =>
    match e with
    | some (.DateTime d) =>
      match v with
      | .String s =>
        match parseRFC3339 s with
        | some t => some (dtLt t d)
        | none => none
      | _ => none
    | _ => none
  | .After =>
    match e with
    | some (.DateTime d) =>
      match v with
      | .String s =>
        match parseRFC3339 s with
        | some t => some (dtLt d t)
        | none => none
      | _ => none
    | _ => none
  | .SameDay =>
    match e with
    | some (.DateTime d) =>
      match v with
      | .String s =>
        match parseRFC3339 s with
        | some t =>
          some (decide (t.year = d.year) && decide (t.month = d.month) &&
                decide (t.day = d.day))
        | none => none
      | _ => none
    | _ => none
  | .Function =>
    match e with
    | some (.Function f) => hit (f v)
    | _ => none

/-- Embedding of `Comparator::evaluate` (`comparator.rs:45-484`): run the
candidate loop; an early return ends it, otherwise the next candidate is
tried; an exhausted loop yields `false`. -/
def Comparator.evaluate (c : Comparator) : List Json → Option QueryValue → Bool
  | [], _ => false
  | v :: rest, e =>
    match loopBody c v e with
    | some b => b
    | none => Comparator.evaluate c rest e

/-- Embedding of `Comparator::compare` (`comparator.rs:41-43`). -/
def Comparator.compare (c : Comparator) (v : Json) (e : Option QueryValue) : Bool :=
  Comparator.evaluate c [v] e

/-! ## Predicate DSL: `FieldPath` (`field_path.rs`) -/

/-- Model of `PathSegment` (`field_path.rs:107-113`). -/
inductive PathSegment where
  | Field (name : String)
  | Wildcard
  | ArrayIndex (idx : Nat)
  | ArrayWildcard
deriving DecidableEq, Repr

/-- Model of `FieldPath` (`field_path.rs:4-7`). -/
structure FieldPath where
  segments : List PathSegment
deriving DecidableEq, Repr

/-- One segment applied to one current value: the `match (segment,
current_value)` body shared by `extract` and `extract_refs`
(`field_path.rs:17-40` and `75-93`). -/
def stepSeg (seg : PathSegment) (v : Json) : List Json :=
  match seg, v with
  | .Field f, .Object m =>
    match m.lookup f with
    | some next => [next]
    | none => []
  | .Wildcard, .Object m => m.map Prod.snd
  | .ArrayIndex i, .Array arr =>
    match arr.get? i with
    | some next => [next]
    | none => []
  | .ArrayWildcard, .Array arr => arr
  | _, _ => []

/-- The segment loop of `FieldPath::extract` (`field_path.rs:13-48`):
`none` models the early `return None` on an empty `next_values`. -/
def extractLoop : List PathSegment → List Json → Option (List Json)
  | [], cur => some cur
  | seg :: rest, cur =>
    let next := cur.flatMap (stepSeg seg)
    if next.isEmpty then none else extractLoop rest next

/-- The segment loop of `FieldPath::extract_refs` (`field_path.rs:71-101`):
the early return hands back an empty vector instead. -/
def extractRefsLoop : List PathSegment → List Json → List Json
  | [], cur => cur
  | seg :: rest, cur =>
    let next := cur.flatMap (stepSeg seg)
    if next.isEmpty then [] else extractRefsLoop rest next

/-- Embedding of `FieldPath::extract` (`field_path.rs:10-66`). -/
def FieldPath.extract (p : FieldPath) (v : Json) : Option Json :=
  match extractLoop p.segments [v] with
  | none => none
  | some cur =>
    match cur with
    | [] => none
    | [x] => some x
    | xs => some (.Array xs)

/-- Embedding of `FieldPath::extract_refs` (`field_path.rs:68-104`). -/
def FieldPath.extract_refs (p : FieldPath) (v : Json) : List Json :=
  extractRefsLoop p.segments [v]

/-- Model of `str::split(char)`: splitting an empty string yields one empty
piece, and each separator occurrence starts a new piece. -/
def splitOnChar (sep : Char) : List Char → List (List Char)
  | [] => [[]]
  | c :: rest =>
    match splitOnChar sep rest with
    | [] => [[c]]
    | h :: t => if c == sep then [] :: h :: t else (c :: h) :: t

/-- Model of `usize::from_str` as used by the bracket-index parser: an
optional leading `+`, then one or more ASCII digits, rejecting values
outside 64-bit range. -/
def parseUsize (cs : List Char) : Option Nat :=
  let t := match cs with
    | '+' :: rest => rest
    | _ => cs
  if t.isEmpty then none
  else if t.all Char.isDigit then
    let n := t.foldl (fun acc c => acc * 10 + digitVal c) 0
    if n < 2 ^ 64 then some n else none
  else none

/-- The per-`.`-segment closure of `FromStr for FieldPath`
(`field_path.rs:121-148`): bracket-containing segments are split on `[` and
each part is kept, mapped, or silently dropped; plain segments become a
wildcard or a field. -/
def segToParts (seg : List Char) : List PathSegment :=
  if seg.contains '[' then
    (splitOnChar '[' seg).filterMap fun part =>
      if part.isEmpty then none
      else if part == ['*', ']'] then some .ArrayWildcard
      else if part.getLastD ' ' == ']' then (parseUsize part.dropLast).map .ArrayIndex
      else some (.Field ⟨part⟩)
  else if seg == ['*'] then [.Wildcard]
  else [.Field ⟨seg⟩]

/-- Embedding of `FromStr for FieldPath` (`field_path.rs:115-153`): split on
`.`, flat-map each segment, and wrap unconditionally in `Ok`. -/
def FieldPath.fromStr (path : String) : Except String FieldPath :=
  .ok ⟨(splitOnChar '.' path.data).flatMap segToParts⟩

/-- Embedding of `From<&str> for FieldPath` (`field_path.rs:155-159`): the
`expect` unwraps the `FromStr` result; `none` models the panic path. -/
def FieldPath.fromString (s : String) : Option FieldPath :=
  match FieldPath.fromStr s with
  | .ok p => some p
  | .error _ => none

/-! ## Predicate DSL: query nodes (`mod.rs`, `field_comparisons.rs`) -/

/-- Model of `LogicalOperator` (`mod.rs:14-18`). -/
inductive LogicalOperator where
  | And
  | Or
deriving DecidableEq

/-- Model of `FieldComparison` (`field_comparisons.rs:4-8`). -/
structure FieldComparison where
  comparator : Comparator
  value : QueryValue

/-- Embedding of `FieldComparison::evaluate` (`field_comparisons.rs:11-14`). -/
def FieldComparison.evaluate (fc : FieldComparison) (field_value : Json) : Bool :=
  fc.comparator.compare field_value (some fc.value)

/-- Model of `FieldNode` (`mod.rs:75-79`); the `FieldLogic` struct's operator
and conditions are inlined into the `Logic` constructor. -/
inductive FieldNode where
  | Comparison (comp : FieldComparison)
  | Logic (operator : LogicalOperator) (conditions : List FieldNode)

mutual
/-- Embedding of `FieldNode::evaluate` (`mod.rs:81-91`). -/
def FieldNode.evaluate : FieldNode → Json → Bool
  | .Comparison comp, fv => comp.evaluate fv
  | .Logic .And conds, fv => FieldNode.evalAll conds fv
  | .Logic .Or conds, fv => FieldNode.evalAny conds fv

/-- `iter().all(...)` over child field nodes. -/
def FieldNode.evalAll : List FieldNode → Json → Bool
  | [], _ => true
  | c :: cs, fv => FieldNode.evaluate c fv && FieldNode.evalAll cs fv

/-- `iter().any(...)` over child field nodes. -/
def FieldNode.evalAny : List FieldNode → Json → Bool
  | [], _ => false
  | c :: cs, fv => FieldNode.evaluate c fv || FieldNode.evalAny cs fv
end

/-- Model of `QueryNode` (`mod.rs:20-24`); the `FieldQueryNode` and
`QueryLogicNode` structs are inlined into the constructors. -/
inductive QueryNode where
  | FieldQuery (path : FieldPath) (node : FieldNode)
  | Logic (operator : LogicalOperator) (children : List QueryNode)

mutual
/-- Embedding of `QueryNode::evaluate`, `QueryLogicNode::evaluate` and
`FieldQueryNode::evaluate` (`mod.rs:26-34`, `55-60`, `139-144`): a field
query extracts the value at its path (failing the predicate when extraction
yields nothing) and evaluates the field node on it. -/
def QueryNode.evaluate : QueryNode → Json → Bool
  | .FieldQuery path node, value =>
    match path.extract value with
    | some field_value => node.evaluate field_value
    | none => false
  | .Logic .And children, value => QueryNode.evalAll children value
  | .Logic .Or children, value => QueryNode.evalAny children value

/-- `iter().all(...)` over child query nodes. -/
def QueryNode.evalAll : List QueryNode → Json → Bool
  | [], _ => true
  | c :: cs, v => QueryNode.evaluate c v && QueryNode.evalAll cs v

/-- `iter().any(...)` over child query nodes. -/
def QueryNode.evalAny : List QueryNode → Json → Bool
  | [], _ => false
  | c :: cs, v => QueryNode.evaluate c v || QueryNode.evalAny cs v
end

/-! ## `LogQuery` (`query_dsl/dlc/integration_with_log_query.rs`)

The DSL-integrated `LogQuery` is embedded (its `matches` is the one of
`log_query.rs` plus the structural-filter check). -/

/-- Model of `logform::LogInfo`: level, message and keyed metadata
(an ordered map, looked up by first occurrence). -/
structure LogInfo where
  level : String
  message : String
  meta : List (String × Json)

/-- Modelled from the spec: `logform`'s conversion of a record to a JSON
tree (`LogInfo::to_value`), carrying the three attributes `level`,
`message` and `meta`. -/
def LogInfo.to_value (e : LogInfo) : Json :=
  .Object [("level", .String e.level), ("message", .String e.message),
           ("meta", .Object e.meta)]

/-- Model of `Order` (`integration_with_log_query.rs:24-28`). -/
inductive Order where
  | Ascending
  | Descending
deriving DecidableEq

/-- Model of `LogQuery` (`integration_with_log_query.rs:11-22`). The Rust
fields `from`/`until` are named `fromTime`/`untilTime` because `from` is a
Lean keyword. -/
structure LogQuery where
  fromTime : Option DateTimeU
  untilTime : Option DateTimeU
  limit : Option Nat
  start : Option Nat
  order : Order
  levels : List String
  fields : List String
  search_term : Option RegexM
  filter : Option QueryNode

/-- A concrete query with nothing set, used as a base for concrete inputs. -/
def LogQuery.base : LogQuery :=
  { fromTime := none, untilTime := none, limit := none, start := none,
    order := .Descending, levels := [], fields := [], search_term := none,
    filter := none }

/-- Embedding of `LogQuery::extract_timestamp`
(`integration_with_log_query.rs:108-113`): the `timestamp` metadata entry,
when present and string-valued, run through `dateparser::parse`. -/
def extract_timestamp (entry : LogInfo) : Option DateTimeU :=
  match entry.meta.lookup "timestamp" with
  | some (.String ts) => parseLooseTime ts
  | _ => none

/-- Stage 5 of `matches`: the structural-filter check
(`integration_with_log_query.rs:146-152`). -/
def matchesFilter (q : LogQuery) (entry : LogInfo) : Bool :=
  match q.filter with
  | some f => if !f.evaluate entry.to_value then false else true
  | none => true

/-- Stage 4 of `matches`: the search-regex check (lines 140-144). -/
def matchesSearch (q : LogQuery) (entry : LogInfo) : Bool :=
  match q.search_term with
  | some r => if !r.test entry.message then false else matchesFilter q entry
  | none => matchesFilter q entry

/-- Stage 3 of `matches`: the `until` bound (lines 130-138). -/
def matchesUntil (q : LogQuery) (entry : LogInfo) : Bool :=
  match q.untilTime with
  | some u =>
    match extract_timestamp entry with
    | some ts => if dtLt u ts then false else matchesSearch q entry
    | none => false
  | none => matchesSearch q entry

/-- Stage 2 of `matches`: the `from` bound (lines 120-128). -/
def matchesFrom (q : LogQuery) (entry : LogInfo) : Bool :=
  match q.fromTime with
  | some f =>
    match extract_timestamp entry with
    | some ts => if dtLt ts f then false else matchesUntil q entry
    | none => false
  | none => matchesUntil q entry

/-- Embedding of `LogQuery::matches`
(`integration_with_log_query.rs:115-153`): the early-return-false checks in
source order — levels, `from`, `until`, search regex, structural filter. -/
def LogQuery.matches (q : LogQuery) (entry : LogInfo) : Bool :=
  if !q.levels.isEmpty && !q.levels.contains entry.level then false
  else matchesFrom q entry

/-- Embedding of the `search_term` builder setter
(`integration_with_log_query.rs:98-101` and `log_query.rs:199-202`):
`Regex::new(s).unwrap()` stores the compiled regex; the `unwrap` panic on a
compile failure is modelled by `none`. -/
def LogQuery.searchTermSet (q : LogQuery) (s : String) : Option LogQuery :=
  match regexCompile s with
  | some r => some { q with search_term := some r }
  | none => none

/-! ## The `BatchedTransport` worker (`batch_transport.rs`)

The worker thread `run_batch_thread` is modelled as a state machine over the
FIFO message stream it receives. A channel receive is one message:
`timeout expired` models `Err(RecvTimeoutError::Timeout)` (with `expired`
standing for the re-read `last_flush.elapsed() >= max_batch_time`), and
`disconnected` models `Err(RecvTimeoutError::Disconnected)`. The wrapped
sink is recorded as the ordered trace of calls the worker makes on it; its
`flush` result is the parameter `fRes`. -/

/-- Model of `BatchConfig` (`batch_transport.rs:14-22`); durations are
abstract `Nat` units. -/
structure BatchConfig where
  max_batch_size : Nat
  max_batch_time : Nat
  flush_on_drop : Bool
deriving DecidableEq, Repr

/-- A worker-loop input: the four `BatchMessage` variants plus the two
`recv_timeout` error outcomes. -/
inductive WMsg (L Q : Type) where
  | log (r : L)
  | flush
  | query (q : Q)
  | shutdown
  | timeout (expired : Bool)
  | disconnected
deriving DecidableEq, Repr

/-- One call observed by the wrapped sink: `transport.log_batch`,
`transport.flush`, or `transport.query`. -/
inductive SinkEv (L Q : Type) where
  | logBatch (records : List L)
  | flushCall
  | queryCall (q : Q)
deriving DecidableEq, Repr

/-- Worker-loop state: the batch buffer, the sink's call trace, and whether
the loop has `break`ed. -/
structure WState (L Q : Type) where
  batch : List L
  events : List (SinkEv L Q)
  stopped : Bool
deriving DecidableEq, Repr

/-- The state before the first loop iteration (`batch_transport.rs:119`). -/
def initWState {L Q : Type} : WState L Q := ⟨[], [], false⟩

/-- Embedding of the `flush_batch` closure (`batch_transport.rs:122-129`):
a non-empty buffer is drained into a single `log_batch` call followed by
`flush`, whose result `fRes` is propagated; an empty buffer yields `Ok(())`
with no sink call. -/
def flushBatch {L Q : Type} (fRes : Except String Unit) (s : WState L Q) :
    WState L Q × Except String Unit :=
  if s.batch.isEmpty then (s, .ok ())
  else ({ s with batch := [],
                 events := s.events ++ [.logBatch s.batch, .flushCall] }, fRes)

/-- Embedding of one iteration of the worker loop's `match message_result`
(`batch_transport.rs:149-182`). `last_flush` bookkeeping is absorbed into
the `expired` flag of timeout messages. -/
def step {L Q : Type} (cfg : BatchConfig) (fRes : Except String Unit)
    (s : WState L Q) : WMsg L Q → WState L Q
  | .log r =>
    let s' := { s with batch := s.batch ++ [r] }
    if cfg.max_batch_size ≤ s'.batch.length then (flushBatch fRes s').1 else s'
  | .flush => (flushBatch fRes s).1
  | .query q =>
    let s' := (flushBatch fRes s).1
    { s' with events := s'.events ++ [.queryCall q] }
  | .shutdown => { (flushBatch fRes s).1 with stopped := true }
  | .timeout expired =>
    if !s.batch.isEmpty && expired then (flushBatch fRes s).1 else s
  | .disconnected => { (flushBatch fRes s).1 with stopped := true }

/-- The reply sent on the response channel of a `Flush` message
(`batch_transport.rs:157-161`): the result of `flush_batch`. -/
def stepReply {L Q : Type} (fRes : Except String Unit) (s : WState L Q) :
    Except String Unit :=
  (flushBatch fRes s).2

/-- The worker loop over a FIFO message stream: messages after a `break`
(shutdown or disconnect) are not processed. -/
def runWorker {L Q : Type} (cfg : BatchConfig) (fRes : Except String Unit) :
    WState L Q → List (WMsg L Q) → WState L Q
  | s, [] => s
  | s, m :: rest =>
    if s.stopped then s else runWorker cfg fRes (step cfg fRes s m) rest

/-- The records carried by `Log` messages of a stream, in order. -/
def logsOf {L Q : Type} (ms : List (WMsg L Q)) : List L :=
  ms.filterMap fun m =>
    match m with
    | .log r => some r
    | _ => none

/-- The records delivered to the sink by a call trace: the concatenation of
its `log_batch` payloads, in order. -/
def deliveredOf {L Q : Type} (evs : List (SinkEv L Q)) : List L :=
  evs.flatMap fun ev =>
    match ev with
    | .logBatch rs => rs
    | _ => []

/-- The message that destruction of the sole original handle leads the
worker to observe: with `flush_on_drop` set, `Drop` sends `Shutdown`
(`batch_transport.rs:251-258`); otherwise `Drop` sends nothing and dropping
the last `Sender` disconnects the channel. -/
def dropMsg {L Q : Type} (cfg : BatchConfig) : WMsg L Q :=
  if cfg.flush_on_drop then .shutdown else .disconnected

/-- Embedding of the receive-deadline computation at the top of each worker
iteration (`batch_transport.rs:131-139`): `none` is a blocking `recv`,
`some t` a `recv_timeout(t)`. -/
def computeTimeout {L : Type} (batch : List L) (elapsed max_batch_time : Nat) :
    Option Nat :=
  if batch.isEmpty then none
  else if max_batch_time ≤ elapsed then some 0
  else some (max_batch_time - elapsed)

/-! ## Worker lemmas -/

lemma deliveredOf_append {L Q : Type} (a b : List (SinkEv L Q)) :
    deliveredOf (a ++ b) = deliveredOf a ++ deliveredOf b := by
  simp [deliveredOf]

lemma logsOf_cons {L Q : Type} (m : WMsg L Q) (ms : List (WMsg L Q)) :
    logsOf (m :: ms) = logsOf [m] ++ logsOf ms := by
  cases m <;> simp [logsOf]

lemma runWorker_of_stopped {L Q : Type} (cfg : BatchConfig)
    (fRes : Except String Unit) (s : WState L Q) (ms : List (WMsg L Q))
    (h : s.stopped = true) : runWorker cfg fRes s ms = s := by
  cases ms <;> simp [runWorker, h]

lemma runWorker_append {L Q : Type} (cfg : BatchConfig)
    (fRes : Except String Unit) (s : WState L Q) (a b : List (WMsg L Q)) :
    runWorker cfg fRes s (a ++ b) = runWorker cfg fRes (runWorker cfg fRes s a) b := by
  induction a generalizing s with
  | nil => rfl
  | cons m a ih =>
    by_cases h : s.stopped = true
    · simp [runWorker, h, runWorker_of_stopped cfg fRes s _ h]
    · rw [Bool.not_eq_true] at h
      simp [runWorker, h, ih]

lemma runWorker_single {L Q : Type} (cfg : BatchConfig)
    (fRes : Except String Unit) (s : WState L Q) (m : WMsg L Q)
    (h : s.stopped = false) : runWorker cfg fRes s [m] = step cfg fRes s m := by
  simp [runWorker, h]

/-- Each processed message conserves records: what the sink has received
plus what is still buffered grows exactly by the message's log payload. -/
lemma step_delivered {L Q : Type} (cfg : BatchConfig)
    (fRes : Except String Unit) (s : WState L Q) (m : WMsg L Q) :
    deliveredOf (step cfg fRes s m).events ++ (step cfg fRes s m).batch
      = deliveredOf s.events ++ s.batch ++ logsOf [m] := by
  cases m <;>
    simp [step, flushBatch, logsOf, deliveredOf, List.isEmpty_iff] <;>
    split <;>
    simp_all [List.isEmpty_iff, deliveredOf]

lemma deliveredOf_nil {L Q : Type} : deliveredOf ([] : List (SinkEv L Q)) = [] := rfl

lemma initWState_events {L Q : Type} : (initWState : WState L Q).events = [] := rfl

lemma initWState_batch {L Q : Type} : (initWState : WState L Q).batch = [] := rfl

/-- The state component of `flush_batch`: the buffer is drained and its
contents land, in order, at the end of the delivered-record sequence. -/
lemma flushBatch_state {L Q : Type} (fRes : Except String Unit) (s : WState L Q) :
    (flushBatch fRes s).1.batch = []
    ∧ deliveredOf (flushBatch fRes s).1.events = deliveredOf s.events ++ s.batch := by
  by_cases hb : s.batch.isEmpty = true
  · rw [List.isEmpty_iff] at hb
    simp [flushBatch, hb]
  · simp [flushBatch, hb, deliveredOf_append, deliveredOf]

lemma runWorker_delivered {L Q : Type} (cfg : BatchConfig)
    (fRes : Except String Unit) (ms : List (WMsg L Q)) :
    ∀ s : WState L Q, s.stopped = false →
      (runWorker cfg fRes s ms).stopped = false →
      deliveredOf (runWorker cfg fRes s ms).events ++ (runWorker cfg fRes s ms).batch
        = deliveredOf s.events ++ s.batch ++ logsOf ms := by
  induction ms with
  | nil =>
    intro s h1 h2
    simp [runWorker, logsOf]
  | cons m rest ih =>
    intro s h1 h2
    have hrun : runWorker cfg fRes s (m :: rest)
        = runWorker cfg fRes (step cfg fRes s m) rest := by
      simp [runWorker, h1]
    rw [hrun] at h2 ⊢
    have hs : (step cfg fRes s m).stopped = false := by
      by_contra hh
      rw [Bool.not_eq_false] at hh
      rw [runWorker_of_stopped cfg fRes _ rest hh] at h2
      rw [h2] at hh
      exact Bool.false_ne_true hh
    rw [ih (step cfg fRes s m) hs h2, step_delivered]
    have hsplit : logsOf (m :: rest) = logsOf [m] ++ logsOf rest := logsOf_cons m rest
    rw [hsplit]
    simp only [List.append_assoc]

/-! ## Claim theorems: the batched worker -/

/-- C1: when the worker has processed the stream `pre` followed by a
`Flush` (the moment its reply is sent to the caller), every record logged in
`pre` has been delivered to the sink and the buffer is empty; and when it
processes a `Query`, the `sink.query` call lands strictly after sink events
delivering exactly the records logged in `pre`. -/
theorem flush_query_barrier {L Q : Type} (cfg : BatchConfig)
    (fRes : Except String Unit) (pre : List (WMsg L Q)) (q : Q)
    (h : (runWorker cfg fRes initWState pre).stopped = false) :
    (deliveredOf (runWorker cfg fRes initWState (pre ++ [.flush])).events = logsOf pre
      ∧ (runWorker cfg fRes initWState (pre ++ [.flush])).batch = [])
    ∧ ∃ E, (runWorker cfg fRes initWState (pre ++ [.query q])).events
            = E ++ [.queryCall q]
        ∧ deliveredOf E = logsOf pre := by
  have hinv : deliveredOf (runWorker cfg fRes initWState pre).events
      ++ (runWorker cfg fRes initWState pre).batch = logsOf pre := by
    simpa only [initWState_events, initWState_batch, deliveredOf_nil,
      List.nil_append] using runWorker_delivered cfg fRes pre initWState rfl h
  rw [runWorker_append cfg fRes initWState pre [.flush],
      runWorker_single cfg fRes _ _ h,
      runWorker_append cfg fRes initWState pre [.query q],
      runWorker_single cfg fRes _ _ h]
  have hfb := flushBatch_state fRes (runWorker cfg fRes initWState pre)
  refine ⟨⟨?_, ?_⟩, (flushBatch fRes (runWorker cfg fRes initWState pre)).1.events,
    ?_, ?_⟩
  · show deliveredOf (flushBatch fRes (runWorker cfg fRes initWState pre)).1.events
      = logsOf pre
    rw [hfb.2, hinv]
  · exact hfb.1
  · rfl
  · rw [hfb.2, hinv]

def cfgW1 : BatchConfig := ⟨2, 5, true⟩

def preW1 : List (WMsg Nat Unit) := [.log 1, .log 2, .log 3]

theorem flush_query_barrier_witness :
    ((deliveredOf (runWorker cfgW1 (.ok ()) initWState (preW1 ++ [.flush])).events
        = logsOf preW1
      ∧ (runWorker cfgW1 (.ok ()) initWState (preW1 ++ [.flush])).batch = [])
    ∧ ∃ E, (runWorker cfgW1 (.ok ()) initWState (preW1 ++ [.query ()])).events
            = E ++ [.queryCall ()]
        ∧ deliveredOf E = logsOf preW1) :=
  flush_query_barrier cfgW1 (.ok ()) preW1 () (by decide)

/-- C2 counterexample: with `flush_on_drop = false` the destruction of the
sole handle leaves the worker to observe channel disconnection, whose
handler flushes: a buffered record IS delivered to the sink, contradicting
the claim that it is lost. -/
theorem drop_disconnect_delivers :
    (⟨100, 10, false⟩ : BatchConfig).flush_on_drop = false
    ∧ deliveredOf (runWorker (⟨100, 10, false⟩ : BatchConfig) (Except.ok ())
        initWState ([.log 0, dropMsg ⟨100, 10, false⟩] : List (WMsg Nat Unit))).events
      = [0] := by
  decide

/-- C2 amended: when `flush_on_drop` is false, destruction sends no
`Shutdown`; the worker instead sees the channel disconnect and its
`Disconnected` branch flushes the remaining buffer to the sink before
exiting, so every record logged before the drop is delivered (provided the
worker thread still gets to run). -/
theorem drop_no_flush_on_drop_delivers {L Q : Type} (cfg : BatchConfig)
    (fRes : Except String Unit) (pre : List (WMsg L Q))
    (hc : cfg.flush_on_drop = false)
    (h : (runWorker cfg fRes initWState pre).stopped = false) :
    deliveredOf (runWorker cfg fRes initWState (pre ++ [dropMsg cfg])).events
      = logsOf pre
    ∧ (runWorker cfg fRes initWState (pre ++ [dropMsg cfg])).batch = []
    ∧ (runWorker cfg fRes initWState (pre ++ [dropMsg cfg])).stopped = true := by
  have hinv : deliveredOf (runWorker cfg fRes initWState pre).events
      ++ (runWorker cfg fRes initWState pre).batch = logsOf pre := by
    simpa only [initWState_events, initWState_batch, deliveredOf_nil,
      List.nil_append] using runWorker_delivered cfg fRes pre initWState rfl h
  rw [runWorker_append cfg fRes initWState pre [dropMsg cfg],
      runWorker_single cfg fRes _ _ h]
  have hd : dropMsg (L := L) (Q := Q) cfg = .disconnected := by
    simp [dropMsg, hc]
  rw [hd]
  have hfb := flushBatch_state fRes (runWorker cfg fRes initWState pre)
  refine ⟨?_, hfb.1, rfl⟩
  show deliveredOf (flushBatch fRes (runWorker cfg fRes initWState pre)).1.events
    = logsOf pre
  rw [hfb.2, hinv]

theorem drop_no_flush_on_drop_delivers_witness :
    deliveredOf (runWorker (⟨100, 10, false⟩ : BatchConfig) (Except.ok ())
        initWState (([.log 4, .log 5] ++ [dropMsg ⟨100, 10, false⟩]) :
          List (WMsg Nat Unit))).events
      = logsOf ([.log 4, .log 5] : List (WMsg Nat Unit))
    ∧ (runWorker (⟨100, 10, false⟩ : BatchConfig) (Except.ok ())
        initWState (([.log 4, .log 5] ++ [dropMsg ⟨100, 10, false⟩]) :
          List (WMsg Nat Unit))).batch = []
    ∧ (runWorker (⟨100, 10, false⟩ : BatchConfig) (Except.ok ())
        initWState (([.log 4, .log 5] ++ [dropMsg ⟨100, 10, false⟩]) :
          List (WMsg Nat Unit))).stopped = true :=
  drop_no_flush_on_drop_delivers _ _ _ rfl (by decide)

/-- C3: the worker's receive deadline is exactly: block indefinitely on an
empty buffer; zero timeout when `max_batch_time` has already elapsed since
the last flush; the remaining `max_batch_time - elapsed` otherwise. -/
theorem computeTimeout_spec {L : Type} (batch : List L) (elapsed mbt : Nat) :
    (batch = [] → computeTimeout batch elapsed mbt = none)
    ∧ (batch ≠ [] → mbt ≤ elapsed → computeTimeout batch elapsed mbt = some 0)
    ∧ (batch ≠ [] → elapsed < mbt →
        computeTimeout batch elapsed mbt = some (mbt - elapsed)) := by
  refine ⟨fun h => ?_, fun h h' => ?_, fun h h' => ?_⟩ <;>
    simp [computeTimeout, h, List.isEmpty_iff] <;> omega

theorem computeTimeout_spec_witness :
    computeTimeout ([] : List Nat) 0 5 = none
    ∧ computeTimeout [1] 7 5 = some 0
    ∧ computeTimeout [1] 3 5 = some 2 :=
  ⟨(computeTimeout_spec ([] : List Nat) 0 5).1 rfl,
   (computeTimeout_spec [1] 7 5).2.1 (by decide) (by decide),
   (computeTimeout_spec [1] 3 5).2.2 (by decide) (by decide)⟩

/-- C4: a `Log` message that fills the buffer to `max_batch_size` or beyond
makes the worker hand the whole drained buffer, in enqueue order, to the
sink in one `log_batch` call followed by one `flush`, leaving the buffer
empty; below the threshold the record is only buffered; and flushing an
empty buffer performs no sink call and yields `Ok`. -/
theorem log_size_trigger {L Q : Type} (cfg : BatchConfig)
    (fRes : Except String Unit) (s : WState L Q) (r : L) :
    (cfg.max_batch_size ≤ s.batch.length + 1 →
      step cfg fRes s (.log r)
        = { s with batch := [],
                   events := s.events ++ [.logBatch (s.batch ++ [r]), .flushCall] })
    ∧ (s.batch.length + 1 < cfg.max_batch_size →
      step cfg fRes s (.log r) = { s with batch := s.batch ++ [r] })
    ∧ flushBatch fRes { s with batch := ([] : List L) }
        = ({ s with batch := [] }, .ok ()) := by
  refine ⟨fun h => ?_, fun h => ?_, ?_⟩
  · simp [step, flushBatch, h]
  · have h' : ¬ cfg.max_batch_size ≤ s.batch.length + 1 := by omega
    simp [step, h']
  · simp [flushBatch]

theorem log_size_trigger_witness :
    step (⟨2, 5, true⟩ : BatchConfig) (.ok ()) (⟨[7], [], false⟩ : WState Nat Unit)
        (.log 8)
      = ⟨[], [.logBatch [7, 8], .flushCall], false⟩
    ∧ step (⟨5, 5, true⟩ : BatchConfig) (.ok ()) (⟨[7], [], false⟩ : WState Nat Unit)
        (.log 8)
      = ⟨[7, 8], [], false⟩ :=
  ⟨(log_size_trigger ⟨2, 5, true⟩ (.ok ()) ⟨[7], [], false⟩ 8).1 (by decide),
   (log_size_trigger ⟨5, 5, true⟩ (.ok ()) ⟨[7], [], false⟩ 8).2.1 (by decide)⟩

/-- C10: a `Flush` processed with an empty buffer leaves the worker state —
in particular the sink's call trace — unchanged and replies `Ok(())`, so the
sink's flush result (even an error) is never observed. -/
theorem flush_empty_frame {L Q : Type} (cfg : BatchConfig)
    (fRes : Except String Unit) (s : WState L Q) (h : s.batch = []) :
    step cfg fRes s .flush = s ∧ stepReply fRes s = Except.ok () := by
  constructor <;> simp [step, stepReply, flushBatch, h]

theorem flush_empty_frame_witness :
    step (⟨100, 10, true⟩ : BatchConfig) (Except.error "Flush failed")
        (⟨[], [.logBatch [3], .flushCall], false⟩ : WState Nat Unit) .flush
      = (⟨[], [.logBatch [3], .flushCall], false⟩ : WState Nat Unit)
    ∧ stepReply (Except.error "Flush failed")
        (⟨[], [.logBatch [3], .flushCall], false⟩ : WState Nat Unit)
      = Except.ok () :=
  flush_empty_frame ⟨100, 10, true⟩ (Except.error "Flush failed") _ rfl

/-! ## Claim theorems: `FieldPath` -/

/-- The two accessor loops are the same traversal: the refs loop returns the
loop's final value set, or `[]` where `extract`'s loop returns early. -/
lemma extractRefsLoop_eq_extractLoop (segs : List PathSegment) :
    ∀ cur : List Json, extractRefsLoop segs cur = (extractLoop segs cur).getD [] := by
  induction segs with
  | nil => intro cur; rfl
  | cons seg rest ih =>
    intro cur
    simp only [extractRefsLoop, extractLoop]
    by_cases h : (cur.flatMap (stepSeg seg)).isEmpty = true <;> simp [h, ih]

/-- C7: `extract` and `extract_refs` agree — `extract` is `none` exactly
when `extract_refs` is empty; a single reference is unwrapped; two or more
references are wrapped, in order, in a JSON array. -/
theorem extract_agrees_with_extract_refs (p : FieldPath) (v : Json) :
    (p.extract v = none ↔ p.extract_refs v = [])
    ∧ (∀ x, p.extract_refs v = [x] → p.extract v = some x)
    ∧ (2 ≤ (p.extract_refs v).length →
        p.extract v = some (.Array (p.extract_refs v))) := by
  unfold FieldPath.extract FieldPath.extract_refs
  rw [extractRefsLoop_eq_extractLoop]
  cases h : extractLoop p.segments [v] with
  | none => simp
  | some cur =>
    cases cur with
    | nil => simp
    | cons a rest =>
      cases rest with
      | nil => simp
      | cons b t => simp

def pathW7 : FieldPath := ⟨[.Field "a", .ArrayWildcard]⟩

def jsonW7 : Json := .Object [("a", .Array [.String "x", .String "y"])]

theorem extract_agrees_with_extract_refs_witness :
    2 ≤ (pathW7.extract_refs jsonW7).length
    ∧ pathW7.extract jsonW7 = some (.Array (pathW7.extract_refs jsonW7)) :=
  ⟨by decide, (extract_agrees_with_extract_refs pathW7 jsonW7).2.2 (by decide)⟩

/-- C9: `FieldPath::from_str` is total — it returns `Ok` on every input, so
`From<&str>` (which unwraps it) never panics — and a bracket segment whose
index is neither digits nor `*` (here `"a[x]"`) is silently dropped from
the segment list rather than reported. -/
theorem fieldPath_fromStr_total :
    (∀ s : String, (FieldPath.fromStr s).isOk = true)
    ∧ (∀ s : String, (FieldPath.fromString s).isSome = true)
    ∧ FieldPath.fromStr "a[x]" = .ok ⟨[.Field "a"]⟩ := by
  refine ⟨fun s => rfl, fun s => rfl, ?_⟩
  rfl

/-! ## Claim theorems: `LogQuery` -/

/-- C8 counterexample: the `search_term` setter applied to the invalid
pattern `"("` reaches the `unwrap` panic path (modelled by `none`) — the
caller is aborted, there is no reported failure to observe. -/
theorem search_term_setter_panics :
    (LogQuery.base.searchTermSet "(").isSome = false := rfl

/-- C8 amended: the `search_term` setter succeeds exactly on the patterns
the regex engine compiles; an invalid pattern makes the `unwrap` panic
(aborting the caller) instead of surfacing a reported failure. -/
theorem search_term_setter_panic_iff (q : LogQuery) (s : String) :
    (q.searchTermSet s).isSome = (regexCompile s).isSome := by
  unfold LogQuery.searchTermSet
  cases regexCompile s <;> simp

lemma matchesFilter_iff (q : LogQuery) (e : LogInfo) :
    matchesFilter q e = true
      ↔ ∀ n, q.filter = some n → n.evaluate e.to_value = true := by
  cases hf : q.filter with
  | none => simp [matchesFilter, hf]
  | some n =>
    by_cases he : n.evaluate e.to_value = true <;> simp [matchesFilter, hf, he]

lemma matchesSearch_iff (q : LogQuery) (e : LogInfo) :
    matchesSearch q e = true
      ↔ (∀ r, q.search_term = some r → r.test e.message = true)
        ∧ ∀ n, q.filter = some n → n.evaluate e.to_value = true := by
  cases hs : q.search_term with
  | none => simp [matchesSearch, hs, matchesFilter_iff]
  | some r =>
    by_cases ht : r.test e.message = true <;>
      simp [matchesSearch, hs, ht, matchesFilter_iff]

lemma matchesUntil_iff (q : LogQuery) (e : LogInfo) :
    matchesUntil q e = true
      ↔ (∀ u, q.untilTime = some u →
          ∃ ts, extract_timestamp e = some ts ∧ dtLt u ts = false)
        ∧ (∀ r, q.search_term = some r → r.test e.message = true)
        ∧ ∀ n, q.filter = some n → n.evaluate e.to_value = true := by
  cases hu : q.untilTime with
  | none => simp [matchesUntil, hu, matchesSearch_iff]
  | some u =>
    cases hts : extract_timestamp e with
    | none => simp [matchesUntil, hu, hts]
    | some ts =>
      by_cases hlt : dtLt u ts = true
      · simp [matchesUntil, hu, hts, hlt]
      · rw [Bool.not_eq_true] at hlt
        simp [matchesUntil, hu, hts, hlt, matchesSearch_iff]

lemma matchesFrom_iff (q : LogQuery) (e : LogInfo) :
    matchesFrom q e = true
      ↔ (∀ f, q.fromTime = some f →
          ∃ ts, extract_timestamp e = some ts ∧ dtLt ts f = false)
        ∧ (∀ u, q.untilTime = some u →
          ∃ ts, extract_timestamp e = some ts ∧ dtLt u ts = false)
        ∧ (∀ r, q.search_term = some r → r.test e.message = true)
        ∧ ∀ n, q.filter = some n → n.evaluate e.to_value = true := by
  cases hf : q.fromTime with
  | none => simp [matchesFrom, hf, matchesUntil_iff]
  | some f =>
    cases hts : extract_timestamp e with
    | none => simp [matchesFrom, hf, hts]
    | some ts =>
      by_cases hlt : dtLt ts f = true
      · simp [matchesFrom, hf, hts, hlt]
      · rw [Bool.not_eq_true] at hlt
        simp [matchesFrom, hf, hts, hlt, matchesUntil_iff]

/-- C5: `LogQuery::matches` holds exactly when the level filter, the `from`
and `until` timestamp bounds (each requiring a parseable string
`meta["timestamp"]`), the search regex and the structural filter all pass,
in that order of checks. -/
theorem matches_characterisation (q : LogQuery) (e : LogInfo) :
    q.matches e = true ↔
      (q.levels = [] ∨ e.level ∈ q.levels)
      ∧ (∀ f, q.fromTime = some f →
          ∃ ts, extract_timestamp e = some ts ∧ dtLt ts f = false)
      ∧ (∀ u, q.untilTime = some u →
          ∃ ts, extract_timestamp e = some ts ∧ dtLt u ts = false)
      ∧ (∀ r, q.search_term = some r → r.test e.message = true)
      ∧ ∀ n, q.filter = some n → n.evaluate e.to_value = true := by
  by_cases hl : (!q.levels.isEmpty && !q.levels.contains e.level) = true
  · have : ¬(q.levels = [] ∨ e.level ∈ q.levels) := by
      simp only [Bool.and_eq_true, Bool.not_eq_true', List.isEmpty_eq_false,
        Bool.not_eq_true] at hl
      simp only [not_or]
      exact ⟨by simpa [List.isEmpty_iff] using hl.1, by simpa using hl.2⟩
    simp [LogQuery.matches, hl, this]
  · have hcond : q.levels = [] ∨ e.level ∈ q.levels := by
      simpa [List.isEmpty_iff, -not_and, not_and_or] using hl
    rw [Bool.not_eq_true] at hl
    simp [LogQuery.matches, hl, hcond, matchesFrom_iff]

def queryW5 : LogQuery :=
  { LogQuery.base with
      levels := ["info"]
      fromTime := some ⟨2024, 4, 1, 0, 0, 0⟩
      untilTime := some ⟨2024, 4, 2, 0, 0, 0⟩ }

def entryW5 : LogInfo :=
  { level := "info", message := "Database connection established",
    meta := [("timestamp", .String "2024-04-01T12:30:00Z")] }

theorem matches_characterisation_witness : queryW5.matches entryW5 = true :=
  (matches_characterisation queryW5 entryW5).mpr
    ⟨Or.inr (by decide),
     fun f hf => ⟨⟨2024, 4, 1, 12, 30, 0⟩, by decide,
       by rw [show f = ⟨2024, 4, 1, 0, 0, 0⟩ from by
               simpa [queryW5, LogQuery.base] using hf.symm]; decide⟩,
     fun u hu => ⟨⟨2024, 4, 1, 12, 30, 0⟩, by decide,
       by rw [show u = ⟨2024, 4, 2, 0, 0, 0⟩ from by
               simpa [queryW5, LogQuery.base] using hu.symm]; decide⟩,
     fun r hr => by simp [queryW5, LogQuery.base] at hr,
     fun n hn => by simp [queryW5, LogQuery.base] at hn⟩

/-! ## Claim theorems: `Comparator::evaluate` -/

/-- C6 counterexample: for the `Before` comparator the first candidate that
parses as RFC 3339 decides the result. With expected instant 2024-01-01, the
candidate list [2024-06-01, 2023-01-01] evaluates to `false` although the
second candidate alone satisfies `Before` — and reversing the candidate
order flips the result, so the claimed any-candidate, order-independent
semantics fails. -/
theorem before_first_candidate_decides :
    Comparator.evaluate .Before
        [.String "2024-06-01T00:00:00Z", .String "2023-01-01T00:00:00Z"]
        (some (.DateTime ⟨2024, 1, 1, 0, 0, 0⟩)) = false
    ∧ Comparator.compare .Before (.String "2023-01-01T00:00:00Z")
        (some (.DateTime ⟨2024, 1, 1, 0, 0, 0⟩)) = true
    ∧ Comparator.evaluate .Before
        [.String "2023-01-01T00:00:00Z", .String "2024-06-01T00:00:00Z"]
        (some (.DateTime ⟨2024, 1, 1, 0, 0, 0⟩)) = true := by
  refine ⟨rfl, rfl, rfl⟩

lemma hit_ne_some_false (b : Bool) : hit b ≠ some false := by
  cases b <;> simp [hit]

lemma compare_getD (c : Comparator) (v : Json) (e : Option QueryValue) :
    Comparator.compare c v e = (loopBody c v e).getD false := by
  cases h : loopBody c v e <;> simp [Comparator.compare, Comparator.evaluate, h]

/-- When no candidate can cause an early `return false`, the candidate loop
realises the any-candidate semantics. -/
lemma eval_any_of_no_early_false (c : Comparator) (e : Option QueryValue)
    (h : ∀ v, loopBody c v e ≠ some false) (vs : List Json) :
    Comparator.evaluate c vs e = true
      ↔ ∃ v ∈ vs, Comparator.compare c v e = true := by
  induction vs with
  | nil => simp [Comparator.evaluate]
  | cons v rest ih =>
    cases hb : loopBody c v e with
    | none =>
      have hcv : Comparator.compare c v e = false := by rw [compare_getD, hb]; rfl
      simp [Comparator.evaluate, hb, ih, hcv]
    | some b =>
      cases b with
      | false => exact absurd hb (h v)
      | true =>
        have hcv : Comparator.compare c v e = true := by rw [compare_getD, hb]; rfl
        constructor
        · intro _
          exact ⟨v, by simp, hcv⟩
        · intro _
          simp [Comparator.evaluate, hb]

/-- When every candidate causes an early `return false` (the
`NotExists`-with-no-expected-value arm), both sides of the any-candidate
equivalence are false. -/
lemma eval_const_false (c : Comparator) (e : Option QueryValue)
    (h : ∀ v, loopBody c v e = some false) (vs : List Json) :
    Comparator.evaluate c vs e = true
      ↔ ∃ v ∈ vs, Comparator.compare c v e = true := by
  induction vs with
  | nil => simp [Comparator.evaluate]
  | cons v rest ih =>
    have hall : ∀ x : Json, Comparator.compare c x e = false := fun x => by
      rw [compare_getD, h x]; rfl
    simp [Comparator.evaluate, h v, hall]

/-- C6 amended: for every comparator other than `Before`, `After` and
`SameDay`, `Comparator::evaluate` returns true on a candidate list iff some
single candidate satisfies the comparison (so the result is independent of
candidate order); the three date comparators instead let the first
RFC 3339-parseable string candidate decide. -/
theorem evaluate_any_candidate (c : Comparator) (e : Option QueryValue)
    (vs : List Json) (h1 : c ≠ .Before) (h2 : c ≠ .After) (h3 : c ≠ .SameDay) :
    Comparator.evaluate c vs e = true
      ↔ ∃ v ∈ vs, Comparator.compare c v e = true := by
  cases c <;>
    first
    | exact absurd rfl h1
    | exact absurd rfl h2
    | exact absurd rfl h3
    | (cases e with
       | none => exact eval_const_false .NotExists none (fun v => rfl) vs
       | some qv =>
         exact eval_any_of_no_early_false _ _ (fun v hv => Option.noConfusion hv) vs)
    | (refine eval_any_of_no_early_false _ _ (fun v hv => ?_) vs
       rcases e with _ | qv
       · first
         | exact Option.noConfusion hv
         | exact Bool.noConfusion (Option.some.inj hv)
         | (cases v <;>
            first
            | exact Option.noConfusion hv
            | exact absurd hv (hit_ne_some_false _))
       · first
         | exact Option.noConfusion hv
         | exact absurd hv (hit_ne_some_false _)
         | (cases qv <;>
            first
            | exact Option.noConfusion hv
            | exact absurd hv (hit_ne_some_false _)
            | (simp only [loopBody] at hv
               split at hv <;>
                 first
                 | exact Option.noConfusion hv
                 | exact absurd hv (hit_ne_some_false _)
                 | (split at hv <;>
                    first
                    | exact Option.noConfusion hv
                    | exact absurd hv (hit_ne_some_false _)))
            | (cases v <;>
               first
               | exact Option.noConfusion hv
               | exact absurd hv (hit_ne_some_false _)
               | (simp only [loopBody] at hv
                  split at hv <;>
                    first
                    | exact Option.noConfusion hv
                    | exact absurd hv (hit_ne_some_false _)
                    | (split at hv <;>
                       first
                       | exact Option.noConfusion hv
                       | exact absurd hv (hit_ne_some_false _))))))

theorem evaluate_any_candidate_witness :
    Comparator.evaluate .Equals [.String "b", .String "a"]
        (some (.String "a")) = true
      ↔ ∃ v ∈ [Json.String "b", Json.String "a"],
          Comparator.compare .Equals v (some (.String "a")) = true :=
  evaluate_any_candidate .Equals (some (.String "a")) [.String "b", .String "a"]
    (by decide) (by decide) (by decide)

end WinstonTransport
